import Mathlib

/-!
Verification of the storage engine of `playdb` (a small slotted-page database
written in Rust) against its natural-language specification.

The Rust source is shallowly embedded:

* machine integers (`u8`, `u16`, `u32`, `i32`, `usize`) are modelled as `Nat`
  or `Int`; where wrap-around can occur the reduction `% 2 ^ w` is written
  explicitly (release-build wrapping semantics; debug builds of the source
  would panic at the same spots, which is noted where it matters);
* `usize` subtraction is `Nat` truncated subtraction.  The Rust original
  panics on underflow; the places where this distinction could matter are
  noted in comments;
* byte buffers (`Vec<u8>`, `&[u8]`) are `List Nat` with entries below 256;
  `buf[a..b].copy_from_slice(src)` becomes `listWrite buf a src`, which agrees
  with the source whenever the write is in bounds (out of bounds the source
  panics);
* fallible code (`Result`, panicking `unwrap`) returns `Except` / `Option`;
* the borrowed `&PageDataLayout` held by a `Page` is passed as an explicit
  function argument instead of being stored in the structure;
* the file system behind `FileStore` is a pure `StoreState`: the 8-byte
  metadata header plus the list of page-sized byte blocks, indexed by
  `page_id - 1`; trivial field accessors of the Rust code (`Row::cells`,
  `Table::schema`, …) are plain field projections.
-/

/-! ## Big-endian byte encodings (`to_be_bytes` / `from_be_bytes`) -/

/-- `u16::to_be_bytes`: two big-endian bytes of `n % 2 ^ 16`. -/
def u16Be (n : Nat) : List Nat := [n / 256 % 256, n % 256]

/-- `u32::to_be_bytes`: four big-endian bytes of `n % 2 ^ 32`. -/
def u32Be (n : Nat) : List Nat :=
  [n / 16777216 % 256, n / 65536 % 256, n / 256 % 256, n % 256]

/-- `i32::to_be_bytes`: the two's-complement big-endian bytes. -/
def i32Be (x : Int) : List Nat := u32Be (x % 4294967296).toNat

/-- Big-endian value of a byte list (`u16::from_be_bytes`, `u32::from_be_bytes`). -/
def beToNat (l : List Nat) : Nat := l.foldl (fun a b => a * 256 + b) 0

/-- `i32::from_be_bytes` of a 4-byte big-endian buffer (two's complement). -/
def beToI32 (l : List Nat) : Int :=
  let n := beToNat l
  if n < 2147483648 then (n : Int) else (n : Int) - 4294967296

/-- `buf[start .. start + src.length].copy_from_slice(src)`.  Faithful to the
Rust slice copy whenever `start + src.length ≤ buf.length`; the Rust original
panics out of bounds. -/
def listWrite (buf : List Nat) (start : Nat) (src : List Nat) : List Nat :=
  buf.take start ++ src ++ buf.drop (start + src.length)

/-! ## UTF-8 (Rust `str::as_bytes` and `String::from_utf8`) -/

/-- UTF-8 encoding of one unicode scalar value (`char` in Rust, `Char` here). -/
def utf8EncodeChar (c : Char) : List Nat :=
  let n := c.toNat
  if n < 128 then [n]
  else if n < 2048 then [192 + n / 64, 128 + n % 64]
  else if n < 65536 then [224 + n / 4096, 128 + n / 64 % 64, 128 + n % 64]
  else [240 + n / 262144, 128 + n / 4096 % 64, 128 + n / 64 % 64, 128 + n % 64]

/-- `str::as_bytes`: the UTF-8 bytes of a string.  `str::len` in the source is
the length of this list. -/
def utf8Bytes (s : String) : List Nat := (s.data.map utf8EncodeChar).flatten

/-- Is `b` a UTF-8 continuation byte `10xxxxxx`? -/
def utf8IsCont (b : Nat) : Bool := 128 ≤ b && b < 192

/-- `String::from_utf8` on a byte list, fuel-driven (the fuel is always at
least the list length at the call site, and each step consumes at least one
byte, so the fuel never runs out).  Rejects exactly what Rust rejects:
truncated sequences, stray continuation bytes, overlong encodings, surrogates
and values above `0x10FFFF`. -/
def utf8DecodeAux : Nat → List Nat → Option (List Char)
  | _, [] => some []
  | 0, _ :: _ => none
  | fuel + 1, b :: rest =>
    if b < 128 then
      (utf8DecodeAux fuel rest).map (fun cs => Char.ofNat b :: cs)
    else if b < 194 then none
    else if b < 224 then
      match rest with
      | c1 :: r =>
        if utf8IsCont c1 then
          (utf8DecodeAux fuel r).map (fun cs => Char.ofNat ((b - 192) * 64 + (c1 - 128)) :: cs)
        else none
      | [] => none
    else if b < 240 then
      match rest with
      | c1 :: c2 :: r =>
        if utf8IsCont c1 && utf8IsCont c2
            && (b != 224 || 160 ≤ c1) && (b != 237 || c1 < 160) then
          (utf8DecodeAux fuel r).map
            (fun cs => Char.ofNat ((b - 224) * 4096 + (c1 - 128) * 64 + (c2 - 128)) :: cs)
        else none
      | _ => none
    else if b < 245 then
      match rest with
      | c1 :: c2 :: c3 :: r =>
        if utf8IsCont c1 && utf8IsCont c2 && utf8IsCont c3
            && (b != 240 || 144 ≤ c1) && (b != 244 || c1 < 144) then
          (utf8DecodeAux fuel r).map
            (fun cs => Char.ofNat ((b - 240) * 262144 + (c1 - 128) * 4096
              + (c2 - 128) * 64 + (c3 - 128)) :: cs)
        else none
      | _ => none
    else none

/-- `String::from_utf8(bytes)`. -/
def utf8Decode (l : List Nat) : Option String :=
  (utf8DecodeAux l.length l).map (fun cs => String.mk cs)

/-! ## Schema (src/table/mod.rs) -/

/-- `ColumnType` (src/table/mod.rs). -/
inductive ColumnType where
  | int
  | varchar (maxLen : Nat)   -- `Varchar(u16)`
  | byte
deriving DecidableEq

/-- `Column` (src/table/mod.rs). -/
structure Column where
  id : Int
  name : String
  col_type : ColumnType
deriving DecidableEq

/-- `TableSchema` (src/table/mod.rs).  `TableSchema::new` panics on an empty
column list; the claims below always use non-empty schemas. -/
structure TableSchema where
  columns : List Column
deriving DecidableEq

/-! ## Cells and rows (src/table/table.rs) -/

/-- `Cell` (src/table/table.rs).  `Byte` carries a `u8`, modelled as a `Nat`
below 256. -/
inductive Cell where
  | int (i : Int)
  | varchar (s : String)
  | byte (b : Nat)
deriving DecidableEq

/-- `Row` (src/table/table.rs). -/
structure Row where
  deleted : Bool
  index : Int
  cells : List Cell
deriving DecidableEq

/-- `Cell::serialize` (src/table/table.rs lines 114-127). -/
def Cell.serialize : Cell → List Nat
  | .int i => i32Be i
  | .varchar s => u16Be (utf8Bytes s).length ++ utf8Bytes s
  | .byte b => [b % 256]

/-- `Row::serialize` (src/table/table.rs lines 38-49): 4 index bytes, one
deleted-flag byte, then `bytes.extend(cell.serialize())` for each cell. -/
def Row.serialize (r : Row) : List Nat :=
  r.cells.foldl (fun bytes cell => bytes ++ cell.serialize)
    (i32Be r.index ++ [if r.deleted then 1 else 0])

/-- `RowValidationError` (src/table/table.rs). -/
inductive RowValidationError where
  | lengthMismatch
  | typeMismatch (colName : String)
  | varcharTooLong (maxLen : Nat) (colName : String)
deriving DecidableEq

/-- The `thiserror` display strings of `RowValidationError`. -/
def RowValidationError.message : RowValidationError → String
  | .lengthMismatch => "Row length does not match schema"
  | .typeMismatch n => "Type mismatch for column \x27" ++ n ++ "\x27"
  | .varcharTooLong m n =>
      "Varchar length exceeds maximum of " ++ toString m ++ " for column \x27" ++ n ++ "\x27"

/-- The per-column loop of `Row::validate` over `cells.zip(columns)`. -/
def validateCells : List (Cell × Column) → Except RowValidationError Unit
  | [] => .ok ()
  | (cell, column) :: rest =>
    match cell, column.col_type with
    | .int _, .int => validateCells rest
    | .varchar input, .varchar maxLen =>
      if (utf8Bytes input).length > maxLen then
        .error (.varcharTooLong maxLen column.name)
      else validateCells rest
    | .byte _, .byte => validateCells rest
    | _, _ => .error (.typeMismatch column.name)

/-- `Row::validate` (src/table/table.rs lines 68-93). -/
def Row.validate (r : Row) (schema : TableSchema) : Except RowValidationError Unit :=
  if r.cells.length ≠ schema.columns.length then .error .lengthMismatch
  else validateCells (r.cells.zip schema.columns)

/-- `Cell::deserialize` (src/table/table.rs lines 132-177).  Returns the cell
and the number of bytes read; `none` models `CellDeserializationError`. -/
def Cell.deserialize (row_data : List Nat) (column : Column) : Option (Cell × Nat) :=
  match column.col_type with
  | .int =>
    if row_data.length < 4 then none
    else some (.int (beToI32 (row_data.take 4)), 4)
  | .varchar len =>
    if row_data.length < 2 then none
    else
      let str_len := beToNat (row_data.take 2)
      if row_data.length < 2 + str_len then none
      else if str_len > len then none
      else
        match utf8Decode ((row_data.drop 2).take str_len) with
        | none => none
        | some s => some (.varchar s, 2 + str_len)
  | .byte =>
    if row_data.length < 1 then none
    else some (.byte (row_data.headD 0), 1)

/-- The per-column loop of `Row::deserialize`: deserializes one cell per
schema column, advancing the offset by the bytes read. -/
def rowCellsLoop (columns : List Column) (row_data : List Nat) (offset : Nat) :
    Option (List Cell × Nat) :=
  match columns with
  | [] => some ([], offset)
  | col :: rest =>
    match Cell.deserialize (row_data.drop offset) col with
    | none => none
    | some (cell, k) =>
      (rowCellsLoop rest row_data (offset + k)).map (fun p => (cell :: p.1, p.2))

/-- `Row::deserialize` (src/table/table.rs lines 52-66).  The source reads the
4 index bytes and byte 4 (the deleted flag) unconditionally, so any input of
fewer than 5 bytes panics — modelled as `none`. -/
def Row.deserialize (row_data : List Nat) (schema : TableSchema) : Option (Row × Nat) :=
  if row_data.length < 5 then none
  else
    let index := beToI32 (row_data.take 4)
    let deleted := row_data.getD 4 0 ≠ 0
    (rowCellsLoop schema.columns row_data 5).map
      (fun p => ({ deleted := deleted, index := index, cells := p.1 }, p.2))

/-! ## Pages (src/data/page.rs) -/

/-- `PageDataLayout` (src/data/page.rs).  `PageDataLayout::new` rejects
`page_size < 32`; the layouts used below satisfy that bound. -/
structure PageDataLayout where
  page_size : Nat
deriving DecidableEq

/-- `PageDataLayout::page_data_size`: `page_size - PAGE_HEADER_SIZE` with
`PAGE_HEADER_SIZE = 14`. -/
def pageDataSize (layout : PageDataLayout) : Nat := layout.page_size - 14

/-- `Slot` (src/data/page.rs lines 100-105): `record_length` is a `u16`,
`page_offset` a `usize` stored on disk as `u32`. -/
structure Slot where
  record_length : Nat
  page_offset : Nat
  deleted : Bool
deriving DecidableEq

/-- `Page` (src/data/page.rs lines 173-188) minus the borrowed layout, which
is passed to each operation explicitly. -/
structure Page where
  data : List Nat
  slots : List Slot
  number_of_records : Nat   -- u16
  data_offset : Nat         -- usize, the free-space pointer
  slots_offset : Nat        -- usize, `len(slots) * 7` after deserialize
  page_id : Int             -- i32
deriving DecidableEq

/-- `PageError` (src/data/page.rs). -/
inductive PageError where
  | insertRowError
  | readPageError
deriving DecidableEq

/-- `Page::new` (src/data/page.rs lines 200-210). -/
def Page.new (layout : PageDataLayout) : Page :=
  { data := List.replicate (pageDataSize layout) 0
  , data_offset := pageDataSize layout
  , number_of_records := 0
  , page_id := 0
  , slots := []
  , slots_offset := 0 }

/-- `Page::row_data` (line 216): `&data[data_offset .. page_data_size]`. -/
def Page.row_data (layout : PageDataLayout) (p : Page) : List Nat :=
  (p.data.take (pageDataSize layout)).drop p.data_offset

/-- `Page::row_data_size` (line 223): `page_data_size - data_offset`
(`usize` subtraction; in-range states have `data_offset ≤ page_data_size`). -/
def Page.row_data_size (layout : PageDataLayout) (p : Page) : Nat :=
  pageDataSize layout - p.data_offset

/-- `Page::slot_size` (line 227): `len(slots) * SLOT_SIZE` with `SLOT_SIZE = 7`. -/
def Page.slot_size (p : Page) : Nat := p.slots.length * 7

/-- `Page::max_fragmented_free_space` (lines 243-249): the largest
`record_length` among deleted slots, 0 if none. -/
def Page.max_fragmented_free_space (p : Page) : Nat :=
  (p.slots.filter (fun s => s.deleted)).foldr (fun s m => max s.record_length m) 0

/-- `Page::space_remaining` (lines 251-256).  The first operand is `usize`
arithmetic `page_data_size - row_data_size - slot_size`; truncated `Nat`
subtraction stands in for the panic a Rust debug build would raise on
underflow. -/
def Page.space_remaining (layout : PageDataLayout) (p : Page) : Nat :=
  max (pageDataSize layout - p.row_data_size layout - p.slot_size)
    p.max_fragmented_free_space

/-- `Page::can_insert` (lines 258-260); `MAX_ROW_LENGTH = u16::MAX = 65535`. -/
def Page.can_insert (layout : PageDataLayout) (p : Page) (row_bytes : List Nat) : Bool :=
  row_bytes.length ≤ p.space_remaining layout && row_bytes.length ≤ 65535

/-- Wrapping `u16` subtraction (both arguments below `2 ^ 16` at the call
site).  Release builds of the source wrap; debug builds panic when `a < b`. -/
def u16Sub (a b : Nat) : Nat := (a + 65536 - b % 65536) % 65536

/-- `Page::insert_record` (src/data/page.rs lines 262-302), returning the
`Result` together with the page after the call (the source mutates through
`&mut self`).  The reuse branch looks for the first slot with
`record_length ≥ len && deleted`; `new_slot_len` is the wrapping `u16`
difference `new_record_len - slot.record_length` of the source. -/
def Page.insert_record (layout : PageDataLayout) (p : Page) (row_bytes : List Nat) :
    Except PageError Unit × Page :=
  if ¬ p.can_insert layout row_bytes then (.error .insertRowError, p)
  else
    let new_record_len := row_bytes.length
    match p.slots.findIdx? (fun s => new_record_len ≤ s.record_length && s.deleted) with
    | some j =>
      let slot := p.slots.getD j ⟨0, 0, false⟩
      let end_of_data := slot.page_offset + row_bytes.length
      let data1 := listWrite p.data slot.page_offset row_bytes
      let new_slot_len := u16Sub new_record_len slot.record_length
      let slots1 :=
        if new_slot_len = 0 then p.slots.set j { slot with deleted := false }
        else p.slots.set j { slot with record_length := new_record_len }
      let slots2 :=
        if new_slot_len > 0 then
          slots1 ++ [{ record_length := new_record_len, page_offset := end_of_data, deleted := false }]
        else slots1
      (.ok (), { p with
                  data := data1,
                  slots := slots2,
                  number_of_records := (p.number_of_records + 1) % 65536 })
    | none =>
      let start_of_data := p.data_offset - row_bytes.length
      let data1 := listWrite p.data start_of_data row_bytes
      let slots2 :=
        if row_bytes.length % 65536 > 0 then
          p.slots ++ [{ record_length := new_record_len, page_offset := start_of_data, deleted := false }]
        else p.slots
      (.ok (), { p with
                  data := data1,
                  data_offset := start_of_data,
                  slots := slots2,
                  number_of_records := (p.number_of_records + 1) % 65536 })

/-- One serialized 7-byte slot entry, as written by the loop in
`Page::serialize` (lines 347-361): the deleted-flag byte is the constant `0`
(`buf[next_free_slots_start] = 0`), then `page_offset` as `u32` and
`record_length` as `u16`, big-endian. -/
def slotEntry (s : Slot) : List Nat := 0 :: (u32Be s.page_offset ++ u16Be s.record_length)

/-- The slot array image: 7-byte entries back to back. -/
def slotsImage (slots : List Slot) : List Nat := (slots.map slotEntry).flatten

/-- The slot-serialization loop of `Page::serialize`: entry `i` is written at
byte `14 + i * 7` of the buffer. -/
def writeSlotsAux : List Nat → List Slot → Nat → List Nat
  | buf, [], _ => buf
  | buf, s :: rest, i => writeSlotsAux (listWrite buf (14 + i * 7) (slotEntry s)) rest (i + 1)

/-- `Page::serialize` (src/data/page.rs lines 323-364): the zeroed
`page_size` buffer receives the four header fields at offsets 0/2/6/10, the
data region at offset 14, then the slot entries.  The header writes cover
bytes `[0, 14)` exactly, so the buffer is the concatenation below; the data
copy requires `data.length = page_data_size` in the source (it panics
otherwise). -/
def Page.serialize (_layout : PageDataLayout) (p : Page) : List Nat :=
  writeSlotsAux
    (u16Be p.number_of_records ++ u32Be p.data_offset ++ i32Be p.page_id
      ++ i32Be ((p.slots.length * 7 : Nat) : Int) ++ p.data)
    p.slots 0

/-- `chunks_exact(7)`: maximal list of complete 7-byte chunks, remainder
dropped. -/
def chunksExact7 : List Nat → List (List Nat)
  | a :: b :: c :: d :: e :: f :: g :: rest => [a, b, c, d, e, f, g] :: chunksExact7 rest
  | _ => []

/-- Parsing of one 7-byte slot entry in `Page::deserialize` (lines 386-398):
byte 0 is the deleted flag (`deleted ↔ byte = 1`), bytes 1..5 the offset,
bytes 5..7 the length. -/
def parseSlot (chunk : List Nat) : Slot :=
  { deleted := chunk.getD 0 0 == 1
  , page_offset := beToNat ((chunk.drop 1).take 4)
  , record_length := beToNat ((chunk.drop 5).take 2) }

/-- `Page::deserialize` (src/data/page.rs lines 366-409). -/
def Page.deserialize (buf : List Nat) (layout : PageDataLayout) : Page :=
  let num_rows := beToNat (buf.take 2)
  let offset := beToI32 ((buf.drop 2).take 4)
  let page_id := beToI32 ((buf.drop 6).take 4)
  let free_slots_offset := (beToI32 ((buf.drop 10).take 4)).toNat
  let data := (buf.drop 14).take (layout.page_size - 14)
  let free_slots := (chunksExact7 (data.take free_slots_offset)).map parseSlot
  { number_of_records := num_rows
  , data_offset := offset.toNat
  , page_id := page_id
  , data := data
  , slots := free_slots
  , slots_offset := free_slots_offset }

/-! ## Page-file metadata and the file store (src/data/page.rs, src/store) -/

/-- `PageFileMetadata` (src/data/page.rs lines 57-61): two `i32` fields. -/
structure PageFileMetadata where
  next_id : Int
  number_of_pages : Int
deriving DecidableEq

/-- Wrap an integer into the `i32` range (release-build `+= 1` overflow
semantics; a debug build would panic at `i32::MAX`). -/
def wrap32 (x : Int) : Int := (x + 2147483648) % 4294967296 - 2147483648

/-- `PageFileMetadata::new` (lines 64-69): `next_id = 1`, `number_of_pages = 0`. -/
def PageFileMetadata.new : PageFileMetadata := { next_id := 1, number_of_pages := 0 }

/-- `PageFileMetadata::allocate_next_page_id` (lines 92-97): returns the
current `next_id`, then increments both fields. -/
def PageFileMetadata.allocate_next_page_id (m : PageFileMetadata) :
    Int × PageFileMetadata :=
  (m.next_id, { next_id := wrap32 (m.next_id + 1)
              , number_of_pages := wrap32 (m.number_of_pages + 1) })

/-- The page file behind `FileStore` (src/store/file_store.rs), as pure data:
the deserialized 8-byte metadata header plus the page-sized byte blocks;
block `k - 1` holds page id `k`. -/
structure StoreState where
  metadata : PageFileMetadata
  filePages : List (List Nat)
deriving DecidableEq

/-- A freshly initialized page file (`FileStore::init`): metadata
`(next_id = 1, number_of_pages = 0)` and no pages. -/
def freshStore : StoreState := { metadata := PageFileMetadata.new, filePages := [] }

/-- Writing page-sized block `v` at index `i` of the file.  A seek past the
end of the Rust file zero-fills the gap, hence the zero pages. -/
def listSetPad (l : List (List Nat)) (i : Nat) (v : List Nat) (page_size : Nat) :
    List (List Nat) :=
  if i < l.length then l.set i v
  else l ++ List.replicate (i - l.length) (List.replicate page_size 0) ++ [v]

/-- `FileStore::write_page` (src/store/file_store.rs lines 77-87): serializes
the page and writes it at byte position `metadata_size + (page_id - 1) *
page_size`, i.e. block index `page_id - 1`. -/
def FileStore.write_page (layout : PageDataLayout) (p : Page) (s : StoreState) :
    StoreState :=
  { s with filePages :=
      listSetPad s.filePages (p.page_id - 1).toNat (p.serialize layout) layout.page_size }

/-- `FileStore::read_page` (lines 61-75): reads `page_size` bytes at block
`page_id - 1` and deserializes them.  Reading past the end of the file is an
I/O error in the source; the model supplies a zero page, which the claims
never rely on. -/
def FileStore.read_page (layout : PageDataLayout) (s : StoreState) (page_id : Nat) : Page :=
  Page.deserialize (s.filePages.getD (page_id - 1) (List.replicate layout.page_size 0)) layout

/-- `FileStore::allocate_page` (lines 89-98): take the next id from the
metadata, create an empty page with that id, write the metadata back, write
the empty page. -/
def FileStore.allocate_page (layout : PageDataLayout) (s : StoreState) :
    Page × StoreState :=
  let idMd := s.metadata.allocate_next_page_id
  let new_page := { Page.new layout with page_id := idMd.1 }
  (new_page, FileStore.write_page layout new_page { s with metadata := idMd.2 })

/-- `PageIterator` (src/store/mod.rs lines 23-58): reads the metadata once,
then yields pages with ids `1, 2, …, number_of_pages` via `read_page`. -/
def pageIterator (layout : PageDataLayout) (s : StoreState) : List Page :=
  (List.range s.metadata.number_of_pages.toNat).map
    (fun i => FileStore.read_page layout s (i + 1))

/-- The loop of `PageRowIterator` (src/store/mod.rs lines 78-91): starting at
`offset = 0`, deserialize a row from `data[offset .. endIdx]` and advance by
the bytes read, until `offset ≥ endIdx`.  Each successful `Row::deserialize`
consumes at least 5 bytes, so fuel `endIdx + 1` never runs out; a failing
deserialization is a panic in the source (modelled by stopping). -/
def pageRowsAux (schema : TableSchema) (data : List Nat) : Nat → Nat → Nat → List Row
  | _, _, 0 => []
  | offset, endIdx, fuel + 1 =>
    if offset ≥ endIdx then []
    else
      match Row.deserialize ((data.take endIdx).drop offset) schema with
      | none => []
      | some (row, k) => row :: pageRowsAux schema data (offset + k) endIdx fuel

/-- All rows a `PageRowIterator` over page `p` yields: the record heap
`row_data` parsed sequentially.  Note that the slot vector is never
consulted, and that the heap is parsed from `data_offset` upwards — most
recently inserted record first. -/
def pageRows (layout : PageDataLayout) (schema : TableSchema) (p : Page) : List Row :=
  pageRowsAux schema (p.row_data layout) 0 (p.row_data_size layout)
    (p.row_data_size layout + 1)

/-- `TableAccessError` (src/database/access.rs lines 11-17). -/
inductive TableAccessError where
  | insertRowError (msg : String)
  | loadRowsError (msg : String)
deriving DecidableEq

/-- Rust `str::trim` on a character list: drop whitespace from the front,
then from the back.  (Rust trims every Unicode `White_Space` character; the
model covers space, tab, carriage return and line feed, which is exact for
the inputs considered here.) -/
def rustTrimList (l : List Char) : List Char :=
  ((l.dropWhile Char.isWhitespace).reverse.dropWhile Char.isWhitespace).reverse

/-- Rust `str::trim`. -/
def rustTrim (s : String) : String := String.mk (rustTrimList s.data)

/-- The column-lookup loop of `TableAccess::find` (src/database/access.rs
lines 65-73): linear scan for the first column whose name equals the target,
returning its index (`col_found = false` becomes `none`). -/
def findColumnLoop : List Column → String → Nat → Option Nat
  | [], _, _ => none
  | col :: rest, target, i =>
    if col.name == target then some i else findColumnLoop rest target (i + 1)

/-- Structural equality of cells — the derived `PartialEq` the comparison
`row.cells()[col_index] == cell` in `find` relies on. -/
def cellBEq : Cell → Cell → Bool
  | .int a, .int b => a == b
  | .varchar a, .varchar b => a == b
  | .byte a, .byte b => a == b
  | _, _ => false

/-- The row-collection loop of `find` over one page's rows: push each row
whose cell at `col_index` equals the target.  (`cells[col_index]` panics in
Rust if out of range; rows deserialized under the schema always have exactly
one cell per column, so the default is never hit there.) -/
def findScanRows (rows : List Row) (col_index : Nat) (cell : Cell) : List Row :=
  match rows with
  | [] => []
  | r :: rest =>
    if cellBEq (r.cells.getD col_index (Cell.int 0)) cell then
      r :: findScanRows rest col_index cell
    else findScanRows rest col_index cell

/-- The page loop of `find`: for each page of the iterator, scan its
`PageRowIterator` rows. -/
def findScanPages (layout : PageDataLayout) (schema : TableSchema) (pages : List Page)
    (col_index : Nat) (cell : Cell) : List Row :=
  match pages with
  | [] => []
  | p :: rest =>
    findScanRows (pageRows layout schema p) col_index cell
      ++ findScanPages layout schema rest col_index cell

/-- `TableAccess::find` (src/database/access.rs lines 62-91).  The error
message interpolates the original, untrimmed `col_name`, while the lookup
compares against `col_name.trim()`. -/
def TableAccess.find (schema : TableSchema) (layout : PageDataLayout) (s : StoreState)
    (col_name : String) (cell : Cell) : Except TableAccessError (List Row) :=
  match findColumnLoop schema.columns (rustTrim col_name) 0 with
  | none => .error (.loadRowsError ("Column \x27" ++ col_name ++ "\x27 not found!"))
  | some col_index => .ok (findScanPages layout schema (pageIterator layout s) col_index cell)

/-- The page loop of `TableAccess::insert` (lines 101-112) followed by its
no-page-accepted fallback (lines 114-124): try each existing page in id
order; insert into and write back the first page whose `can_insert` accepts
the serialized row; otherwise allocate a fresh page, insert there, write it.
A failing `insert_record` surfaces through `From<PageError>` as
`InsertRowError("Failed to insert row into page.")`. -/
def insertLoop (layout : PageDataLayout) (pages : List Page) (row : Row) (s : StoreState) :
    Except TableAccessError Unit × StoreState :=
  match pages with
  | [] =>
    let ps := FileStore.allocate_page layout s
    match Page.insert_record layout ps.1 row.serialize with
    | (.error _, _) => (.error (.insertRowError "Failed to insert row into page."), ps.2)
    | (.ok _, p1) => (.ok (), FileStore.write_page layout p1 ps.2)
  | p :: rest =>
    if p.can_insert layout row.serialize then
      match Page.insert_record layout p row.serialize with
      | (.error _, _) => (.error (.insertRowError "Failed to insert row into page."), s)
      | (.ok _, p1) => (.ok (), FileStore.write_page layout p1 s)
    else insertLoop layout rest row s

/-- `TableAccess::insert` (src/database/access.rs lines 95-127): validate
first (`row.validate(schema)?`, whose error converts to
`InsertRowError("Row validation error: …")`), then run the page loop. -/
def TableAccess.insert (schema : TableSchema) (layout : PageDataLayout) (row : Row)
    (s : StoreState) : Except TableAccessError Unit × StoreState :=
  match Row.validate row schema with
  | .error e =>
    (.error (.insertRowError ("Row validation error: " ++ e.message)), s)
  | .ok _ => insertLoop layout (pageIterator layout s) row s

/-! ## Derived definitions used by the statements below -/

deriving instance DecidableEq for Except

/-- The store after `k` successful `allocate_page` calls on a freshly
initialized page file. -/
def allocState (layout : PageDataLayout) : Nat → StoreState
  | 0 => freshStore
  | k + 1 => (FileStore.allocate_page layout (allocState layout k)).2

/-- The 14 header bytes `Page::serialize` writes at offsets 0 / 2 / 6 / 10. -/
def pageHeader (p : Page) : List Nat :=
  u16Be p.number_of_records ++ u32Be p.data_offset ++ i32Be p.page_id
    ++ i32Be ((p.slots.length * 7 : Nat) : Int)

/-! ## Concrete fixtures -/

/-- The 32-byte layout of the repository's own page tests. -/
def layout32 : PageDataLayout := ⟨32⟩

/-- The 64-byte layout of the repository's multi-insert tests. -/
def layout64 : PageDataLayout := ⟨64⟩

/-- A single-`Byte`-column schema. -/
def schemaByte : TableSchema := ⟨[⟨1, "v", .byte⟩]⟩

/-- A one-cell `Byte` row (deleted flag clear, index 0). -/
def rowByte7 : Row := ⟨false, 0, [Cell.byte 7]⟩

/-- A 32-byte page holding one deleted slot of capacity 3 at offset 12
(`data_offset = 12`): the state reached by inserting two 3-byte records and
deleting the second one. -/
def pageDel3 : Page :=
  { data := List.replicate 18 0, slots := [⟨3, 12, true⟩], number_of_records := 1
  , data_offset := 12, slots_offset := 0, page_id := 0 }

/-- A 32-byte page with one deleted slot of capacity 3 at offset 15. -/
def pageDel15 : Page :=
  { data := List.replicate 18 0, slots := [⟨3, 15, true⟩], number_of_records := 1
  , data_offset := 15, slots_offset := 0, page_id := 1 }

/-- A 32-byte page mixing a deleted and a live slot. -/
def pageMix : Page :=
  { data := List.replicate 18 0, slots := [⟨3, 15, true⟩, ⟨4, 11, false⟩]
  , number_of_records := 2, data_offset := 11, slots_offset := 0, page_id := 1 }

/-- The serialized bytes of a `schemaByte` row with index `idx` and cell
`Byte 5`. -/
def rowBytes5 (idx : Int) : List Nat := Row.serialize ⟨false, idx, [Cell.byte 5]⟩

/-- The data region of a crafted 64-byte page: two slot entries — slot 0
deleted, pointing at the record with row index 1 at heap offset 44; slot 1
live, pointing at the record with row index 2 at heap offset 38 — then the
free region, then the two records (most recent at `data_offset = 38`). -/
def dataTwoRecs : List Nat :=
  ([1] ++ u32Be 44 ++ u16Be 6) ++ ([0] ++ u32Be 38 ++ u16Be 6)
    ++ List.replicate 24 0 ++ rowBytes5 2 ++ rowBytes5 1

/-- The crafted page buffer: 2 records, `data_offset = 38`, page id 1,
`slots_byte_length = 14`. -/
def bufTwoRecs : List Nat := u16Be 2 ++ u32Be 38 ++ i32Be 1 ++ i32Be 14 ++ dataTwoRecs

/-- A one-page store holding `bufTwoRecs`. -/
def storeTwoRecs : StoreState := ⟨⟨2, 1⟩, [bufTwoRecs]⟩

/-! ## General lemmas about the byte-level helpers -/

theorem take_append_len (x y : List Nat) (n : Nat) (h : x.length = n) :
    (x ++ y).take n = x := by
  subst h; exact List.take_left x y

theorem drop_append_len (x y : List Nat) (n : Nat) (h : x.length = n) :
    (x ++ y).drop n = y := by
  subst h; exact List.drop_left x y

theorem drop_append_len_add (x y : List Nat) (n k : Nat) (h : x.length = n) :
    (x ++ y).drop (n + k) = y.drop k := by
  rw [← List.drop_drop, drop_append_len x y n h]

theorem listWrite_length (buf src : List Nat) (start : Nat)
    (h : start + src.length ≤ buf.length) :
    (listWrite buf start src).length = buf.length := by
  simp [listWrite]; omega

theorem listWrite_merge (buf a b : List Nat) (start : Nat) (h : start ≤ buf.length) :
    listWrite (listWrite buf start a) (start + a.length) b = listWrite buf start (a ++ b) := by
  have hT : (buf.take start ++ a).length = start + a.length := by simp; omega
  unfold listWrite
  rw [← List.append_assoc]
  rw [take_append_len _ _ _ hT, drop_append_len_add _ _ _ _ hT, List.drop_drop]
  simp [List.append_assoc, Nat.add_assoc, Nat.add_comm b.length (start + a.length)]

theorem length_slotEntry (s : Slot) : (slotEntry s).length = 7 := rfl

theorem slotsImage_cons (s : Slot) (rest : List Slot) :
    slotsImage (s :: rest) = slotEntry s ++ slotsImage rest := by
  simp [slotsImage]

theorem length_slotsImage (slots : List Slot) :
    (slotsImage slots).length = slots.length * 7 := by
  induction slots with
  | nil => rfl
  | cons s rest ih => rw [slotsImage_cons]; simp [length_slotEntry, ih]; omega

theorem writeSlotsAux_eq_image (slots : List Slot) : ∀ (buf : List Nat) (i : Nat),
    14 + i * 7 + slots.length * 7 ≤ buf.length →
    writeSlotsAux buf slots i = listWrite buf (14 + i * 7) (slotsImage slots) := by
  induction slots with
  | nil =>
    intro buf i h
    simp [writeSlotsAux, slotsImage, listWrite, List.take_append_drop]
  | cons s rest ih =>
    intro buf i h
    rw [writeSlotsAux]
    have hlen : (listWrite buf (14 + i * 7) (slotEntry s)).length = buf.length :=
      listWrite_length _ _ _ (by rw [length_slotEntry]; simp at h ⊢; omega)
    rw [ih _ (i + 1) (by rw [hlen]; simp at h ⊢; omega)]
    have harg : 14 + (i + 1) * 7 = (14 + i * 7) + (slotEntry s).length := by
      rw [length_slotEntry]; ring
    rw [harg, listWrite_merge _ _ _ _ (by simp at h ⊢; omega), ← slotsImage_cons]

theorem length_pageHeader (p : Page) : (pageHeader p).length = 14 := rfl

/-- Closed form of `Page::serialize`: header, slot-entry image, then the rest
of the data region. -/
theorem serialize_closed (layout : PageDataLayout) (p : Page)
    (h1 : p.data.length = pageDataSize layout)
    (h2 : p.slots.length * 7 ≤ pageDataSize layout) :
    p.serialize layout = pageHeader p ++ slotsImage p.slots
      ++ p.data.drop (p.slots.length * 7) := by
  unfold Page.serialize
  have hbuf : u16Be p.number_of_records ++ u32Be p.data_offset ++ i32Be p.page_id
      ++ i32Be ((p.slots.length * 7 : Nat) : Int) ++ p.data = pageHeader p ++ p.data := by
    simp [pageHeader, List.append_assoc]
  rw [hbuf, writeSlotsAux_eq_image _ _ 0
    (by simp [length_pageHeader, h1]; omega)]
  unfold listWrite
  rw [show 14 + 0 * 7 = 14 from rfl,
    take_append_len _ _ 14 (length_pageHeader p),
    drop_append_len_add _ _ 14 _ (length_pageHeader p),
    length_slotsImage, List.append_assoc]

theorem beToNat_u16Be (n : Nat) : beToNat (u16Be n) = n % 65536 := by
  simp [beToNat, u16Be, List.foldl]; omega

theorem beToNat_u32Be (n : Nat) : beToNat (u32Be n) = n % 4294967296 := by
  simp [beToNat, u32Be, List.foldl]; omega

theorem beToI32_u32Be_small (n : Nat) (h : n < 2147483648) :
    beToI32 (u32Be n) = (n : Int) := by
  simp [beToI32, beToNat_u32Be, Nat.mod_eq_of_lt (show n < 4294967296 by omega), h]

theorem beToI32_i32Be (x : Int) (hl : -2147483648 ≤ x) (hr : x < 2147483648) :
    beToI32 (i32Be x) = x := by
  simp only [i32Be, beToI32, beToNat_u32Be]
  split <;> omega

theorem u32Be_mod (n : Nat) : u32Be (n % 4294967296) = u32Be n := by
  simp [u32Be]
  refine ⟨by omega, by omega, by omega, by omega⟩

theorem u16Be_mod (n : Nat) : u16Be (n % 65536) = u16Be n := by
  simp [u16Be]
  exact ⟨by omega, by omega⟩

theorem slotEntry_mod (s : Slot) :
    slotEntry ⟨s.record_length % 65536, s.page_offset % 4294967296, false⟩ = slotEntry s := by
  simp [slotEntry, u32Be_mod, u16Be_mod]

theorem parseSlot_slotEntry (s : Slot) :
    parseSlot (slotEntry s) = ⟨s.record_length % 65536, s.page_offset % 4294967296, false⟩ := by
  simp [parseSlot, slotEntry, u32Be, u16Be, beToNat, List.foldl]
  constructor <;> omega

theorem chunksExact7_slotsImage (slots : List Slot) :
    chunksExact7 (slotsImage slots) = slots.map slotEntry := by
  induction slots with
  | nil => rfl
  | cons s rest ih =>
    rw [slotsImage_cons]
    show chunksExact7 ((0 :: (u32Be s.page_offset ++ u16Be s.record_length))
      ++ slotsImage rest) = slotEntry s :: rest.map slotEntry
    simp only [u32Be, u16Be, List.cons_append, List.nil_append, chunksExact7]
    simp [slotEntry, u32Be, u16Be, ih]

/-- What `Page::deserialize` reads back from `Page::serialize`: every header
field and the data region survive, the slot vector comes back with all
deleted flags `false` (the serializer writes a constant 0 there) and with
`record_length` / `page_offset` reduced to their wire widths, and the low
bytes of the data region now hold the slot image. -/
theorem deserialize_serialize (layout : PageDataLayout) (p : Page)
    (h1 : p.data.length = pageDataSize layout)
    (h2 : p.slots.length * 7 ≤ pageDataSize layout)
    (h3 : p.number_of_records < 65536)
    (h4 : p.data_offset < 2147483648)
    (h5 : -2147483648 ≤ p.page_id) (h6 : p.page_id < 2147483648)
    (h7 : pageDataSize layout < 2147483648) :
    Page.deserialize (p.serialize layout) layout =
      { p with
          data := slotsImage p.slots ++ p.data.drop (p.slots.length * 7),
          slots := p.slots.map
            (fun s => ⟨s.record_length % 65536, s.page_offset % 4294967296, false⟩),
          slots_offset := p.slots.length * 7 } := by
  have hB : p.serialize layout
      = u16Be p.number_of_records ++ (u32Be p.data_offset ++ (i32Be p.page_id
        ++ (i32Be ((p.slots.length * 7 : Nat) : Int)
          ++ (slotsImage p.slots ++ p.data.drop (p.slots.length * 7))))) := by
    rw [serialize_closed layout p h1 h2]; simp [pageHeader, List.append_assoc]
  have d2 : (p.serialize layout).drop 2
      = u32Be p.data_offset ++ (i32Be p.page_id
        ++ (i32Be ((p.slots.length * 7 : Nat) : Int)
          ++ (slotsImage p.slots ++ p.data.drop (p.slots.length * 7)))) := by
    rw [hB]; exact drop_append_len _ _ 2 rfl
  have d6 : (p.serialize layout).drop 6
      = i32Be p.page_id ++ (i32Be ((p.slots.length * 7 : Nat) : Int)
          ++ (slotsImage p.slots ++ p.data.drop (p.slots.length * 7))) := by
    rw [hB, show (6 : Nat) = 2 + 4 from rfl, drop_append_len_add _ _ 2 4 (by rfl)]
    exact drop_append_len _ _ 4 rfl
  have d10 : (p.serialize layout).drop 10
      = i32Be ((p.slots.length * 7 : Nat) : Int)
          ++ (slotsImage p.slots ++ p.data.drop (p.slots.length * 7)) := by
    rw [hB, show (10 : Nat) = 2 + 8 from rfl, drop_append_len_add _ _ 2 8 (by rfl),
      show (8 : Nat) = 4 + 4 from rfl, drop_append_len_add _ _ 4 4 (by rfl)]
    exact drop_append_len _ _ 4 rfl
  have hB14 : p.serialize layout
      = pageHeader p ++ (slotsImage p.slots ++ p.data.drop (p.slots.length * 7)) := by
    rw [serialize_closed layout p h1 h2, List.append_assoc]
  have r1 : (p.serialize layout).take 2 = u16Be p.number_of_records := by
    rw [hB]; exact take_append_len _ _ _ rfl
  have r2 : ((p.serialize layout).drop 2).take 4 = u32Be p.data_offset := by
    rw [d2]; exact take_append_len _ _ 4 rfl
  have r3 : ((p.serialize layout).drop 6).take 4 = i32Be p.page_id := by
    rw [d6]; exact take_append_len _ _ 4 rfl
  have r4 : ((p.serialize layout).drop 10).take 4
      = i32Be ((p.slots.length * 7 : Nat) : Int) := by
    rw [d10]; exact take_append_len _ _ 4 rfl
  have r5 : (p.serialize layout).drop 14
      = slotsImage p.slots ++ p.data.drop (p.slots.length * 7) := by
    rw [hB14]; exact drop_append_len _ _ _ (length_pageHeader p)
  have hlen : (slotsImage p.slots ++ p.data.drop (p.slots.length * 7)).length
      = layout.page_size - 14 := by
    simp [length_slotsImage, h1]
    unfold pageDataSize at h1 h2 ⊢
    omega
  have r6 : ((p.serialize layout).drop 14).take (layout.page_size - 14)
      = slotsImage p.slots ++ p.data.drop (p.slots.length * 7) := by
    rw [r5, ← hlen, List.take_length]
  have rslots : beToI32 (i32Be ((p.slots.length * 7 : Nat) : Int))
      = ((p.slots.length * 7 : Nat) : Int) := by
    refine beToI32_i32Be _ (by omega) (by omega)
  simp only [Page.deserialize, r1, r2, r3, r4, r6, rslots, beToNat_u16Be,
    beToI32_u32Be_small _ h4, beToI32_i32Be _ h5 h6, Int.toNat_natCast,
    Nat.mod_eq_of_lt h3]
  rw [take_append_len _ _ _ (length_slotsImage p.slots), chunksExact7_slotsImage,
    List.map_map]
  simp [Function.comp, parseSlot_slotEntry]

theorem slotsImage_map_mod (slots : List Slot) :
    slotsImage (slots.map
      (fun s => ⟨s.record_length % 65536, s.page_offset % 4294967296, false⟩))
      = slotsImage slots := by
  unfold slotsImage
  rw [List.map_map]
  exact congrArg List.flatten (List.map_congr_left (fun s _ => slotEntry_mod s))

/-- Helper for C6: serializing the deserialized page reproduces the bytes. -/
theorem serialize_roundtrip (layout : PageDataLayout) (p : Page)
    (h1 : p.data.length = pageDataSize layout)
    (h2 : p.slots.length * 7 ≤ pageDataSize layout)
    (h3 : p.number_of_records < 65536)
    (h4 : p.data_offset < 2147483648)
    (h5 : -2147483648 ≤ p.page_id) (h6 : p.page_id < 2147483648)
    (h7 : pageDataSize layout < 2147483648) :
    (Page.deserialize (p.serialize layout) layout).serialize layout
      = p.serialize layout := by
  rw [deserialize_serialize layout p h1 h2 h3 h4 h5 h6 h7]
  have h1a : (slotsImage p.slots ++ p.data.drop (p.slots.length * 7)).length
      = pageDataSize layout := by
    simp [length_slotsImage, h1]
    unfold pageDataSize at h1 h2 ⊢
    omega
  rw [serialize_closed layout _ (by simpa using h1a) (by simpa using h2)]
  rw [serialize_closed layout p h1 h2]
  have hhdr : pageHeader { p with
      data := slotsImage p.slots ++ p.data.drop (p.slots.length * 7),
      slots := p.slots.map
        (fun s => ⟨s.record_length % 65536, s.page_offset % 4294967296, false⟩),
      slots_offset := p.slots.length * 7 } = pageHeader p := by
    simp [pageHeader]
  rw [hhdr]
  simp only [slotsImage_map_mod, List.length_map]
  rw [drop_append_len _ _ _ (length_slotsImage p.slots)]

/-- The `bytes.extend(...)` loop of `Row::serialize` appends the cell
encodings to the initial buffer. -/
theorem foldl_extend_cells (cells : List Cell) : ∀ init : List Nat,
    cells.foldl (fun bytes cell => bytes ++ cell.serialize) init
      = init ++ (cells.map Cell.serialize).flatten := by
  induction cells with
  | nil => intro init; simp
  | cons c rest ih => intro init; simp [List.foldl_cons, ih, List.append_assoc]

/-- After `k ≤ i32::MAX - 1` allocations the page-file metadata reads
`(next_id = k + 1, number_of_pages = k)`. -/
theorem allocState_metadata (layout : PageDataLayout) (k : Nat)
    (h : k ≤ 2147483646) :
    (allocState layout k).metadata = ⟨(k : Int) + 1, (k : Int)⟩ := by
  induction k with
  | zero => rfl
  | succ n ih =>
    have hn : n ≤ 2147483646 := by omega
    simp only [allocState, FileStore.allocate_page, FileStore.write_page,
      PageFileMetadata.allocate_next_page_id, ih hn, wrap32]
    refine congrArg₂ PageFileMetadata.mk ?_ ?_ <;> push_cast <;> omega

theorem dropWhile_dropWhile (p : Char → Bool) (l : List Char) :
    (l.dropWhile p).dropWhile p = l.dropWhile p := by
  induction l with
  | nil => rfl
  | cons a t ih =>
    by_cases h : p a
    · simp [List.dropWhile_cons, h, ih]
    · simp [List.dropWhile_cons, h]

theorem dropWhile_is_suffix (p : Char → Bool) (l : List Char) :
    ∃ t, t ++ l.dropWhile p = l := by
  induction l with
  | nil => exact ⟨[], rfl⟩
  | cons a t ih =>
    by_cases h : p a
    · obtain ⟨u, hu⟩ := ih
      exact ⟨a :: u, by simp [List.dropWhile_cons, h, hu]⟩
    · exact ⟨[], by simp [List.dropWhile_cons, h]⟩

theorem dropWhile_head_false (p : Char → Bool) (l : List Char) (a : Char)
    (t : List Char) (h : l.dropWhile p = a :: t) : p a = false := by
  induction l with
  | nil => simp at h
  | cons b u ih =>
    rw [List.dropWhile_cons] at h
    by_cases hb : p b
    · simp [hb] at h; exact ih h
    · simp [hb] at h
      rw [← h.1]
      simpa using hb

/-- A prefix of a `dropWhile` result is unchanged by another `dropWhile`. -/
theorem dropWhile_eq_self_of_prefix_dropWhile (p : Char → Bool) (l B u : List Char)
    (h : B ++ u = l.dropWhile p) : B.dropWhile p = B := by
  cases B with
  | nil => rfl
  | cons a t =>
    have hA : l.dropWhile p = a :: (t ++ u) := by rw [← h]; simp
    have hws : p a = false := dropWhile_head_false p l a _ hA
    rw [List.dropWhile_cons, hws]
    simp

/-- `str::trim` is idempotent. -/
theorem rustTrimList_idem (l : List Char) :
    rustTrimList (rustTrimList l) = rustTrimList l := by
  unfold rustTrimList
  obtain ⟨u, hu⟩ := dropWhile_is_suffix Char.isWhitespace
    (List.dropWhile Char.isWhitespace l).reverse
  have hpref : (List.dropWhile Char.isWhitespace
      (List.dropWhile Char.isWhitespace l).reverse).reverse ++ u.reverse
      = List.dropWhile Char.isWhitespace l := by
    have hrev := congrArg List.reverse hu
    simpa [List.reverse_append] using hrev
  rw [dropWhile_eq_self_of_prefix_dropWhile Char.isWhitespace l _ _ hpref,
    List.reverse_reverse, dropWhile_dropWhile]

/-- `rustTrim` is idempotent. -/
theorem rustTrim_idem (s : String) : rustTrim (rustTrim s) = rustTrim s := by
  unfold rustTrim
  exact congrArg String.mk (rustTrimList_idem s.data)

/-- The lookup loop of `find` returns `none` exactly when no column name
matches. -/
theorem findColumnLoop_none (cols : List Column) (target : String) : ∀ i : Nat,
    findColumnLoop cols target i = none → ∀ col ∈ cols, ¬ col.name = target := by
  induction cols with
  | nil => intro i _ col hmem; simp at hmem
  | cons c rest ih =>
    intro i h col hmem
    rw [findColumnLoop] at h
    by_cases hc : c.name == target
    · simp [hc] at h
    · simp only [hc, Bool.false_eq_true, if_false] at h
      rcases List.mem_cons.mp hmem with hcol | hcol
      · subst hcol; simpa using hc
      · exact ih (i + 1) h col hcol

/-- The lookup loop of `find` computes `List.findIdx` (shifted by the start
index) whenever a match exists. -/
theorem findColumnLoop_some (cols : List Column) (target : String) : ∀ i : Nat,
    (∃ col ∈ cols, col.name = target) →
    findColumnLoop cols target i
      = some (i + cols.findIdx (fun col => col.name == target)) := by
  induction cols with
  | nil => intro i h; simp at h
  | cons c rest ih =>
    intro i h
    rw [findColumnLoop, List.findIdx_cons]
    by_cases hc : c.name == target
    · simp [hc]
    · have hrest : ∃ col ∈ rest, col.name = target := by
        rcases h with ⟨col, hmem, hname⟩
        rcases List.mem_cons.mp hmem with hcol | hcol
        · subst hcol; simp [hname] at hc
        · exact ⟨col, hcol, hname⟩
      have hcf : (c.name == target) = false := by simpa using hc
      simp only [hcf, Bool.false_eq_true, if_false, cond_false]
      rw [ih (i + 1) hrest]
      exact congrArg some (by omega)

/-- The row loop of `find` is a filter. -/
theorem findScanRows_eq_filter (rows : List Row) (i : Nat) (c : Cell) :
    findScanRows rows i c
      = rows.filter (fun r => cellBEq (r.cells.getD i (Cell.int 0)) c) := by
  induction rows with
  | nil => rfl
  | cons r rest ih =>
    rw [findScanRows, List.filter_cons]
    by_cases h : cellBEq (r.cells.getD i (Cell.int 0)) c
    · simp [h, ih]
    · simp [h, ih]

/-- The page loop of `find` filters the concatenation of all pages' rows. -/
theorem findScanPages_eq_filter (layout : PageDataLayout) (schema : TableSchema)
    (pages : List Page) (i : Nat) (c : Cell) :
    findScanPages layout schema pages i c
      = ((pages.map (fun p => pageRows layout schema p)).flatten).filter
          (fun r => cellBEq (r.cells.getD i (Cell.int 0)) c) := by
  induction pages with
  | nil => rfl
  | cons p rest ih =>
    rw [findScanPages, findScanRows_eq_filter, ih]
    simp [List.filter_append]

/-- Additional lemma for C4: a column lookup over columns none of which
match returns `none`. -/
theorem findColumnLoop_eq_none (cols : List Column) (target : String) : ∀ i : Nat,
    (∀ col ∈ cols, ¬ col.name = target) → findColumnLoop cols target i = none := by
  induction cols with
  | nil => intro i _; rfl
  | cons c rest ih =>
    intro i h
    have hcf : (c.name == target) = false := by
      simpa using h c (List.mem_cons_self c rest)
    rw [findColumnLoop]
    simp only [hcf, Bool.false_eq_true, if_false]
    exact ih (i + 1) (fun col hcol => h col (List.mem_cons_of_mem c hcol))

/-! ## The claims -/

/-- C1, counterexample: the claim says `Row::serialize` is exactly the
concatenation of the cell encodings with no additional framing, but on the
valid one-`Byte`-cell row `rowByte7` the serializer emits
`[0, 0, 0, 0, 0, 7]` — a 4-byte index and a deleted-flag byte precede the
single cell byte `[7]`. -/
theorem C1_counterexample :
    Row.validate rowByte7 schemaByte = .ok ()
    ∧ Row.serialize rowByte7 ≠ (rowByte7.cells.map Cell.serialize).flatten := by
  decide

/-- C1, amended: `Row::serialize(r)` is the 4-byte big-endian signed row
index, then one deleted-flag byte (1 if deleted, else 0), then exactly the
concatenation of the cell encodings (Int: 4 bytes big-endian signed;
Varchar: 2-byte big-endian length then the UTF-8 bytes; Byte: 1 raw byte) in
cell order, with no further framing between or after the cells. -/
theorem C1_row_serialize_layout (r : Row) :
    Row.serialize r = i32Be r.index ++ [if r.deleted then 1 else 0]
      ++ (r.cells.map (fun c => match c with
            | .int i => i32Be i
            | .varchar s => u16Be (utf8Bytes s).length ++ utf8Bytes s
            | .byte b => [b % 256])).flatten := by
  unfold Row.serialize
  rw [foldl_extend_cells]
  congr 1

/-- C2, failing evaluation: inserting the 2-byte record `[9, 9]` into a page
whose only slot is deleted with capacity 3 must, per the claim, revive that
slot (`deleted = false`, `record_length = 2`) and append no new slot.  The
code instead computes the wrapping `u16` difference `2 - 3` (a panic in
debug builds), leaves the slot deleted with `record_length = 2`, and appends
a second, spurious live slot — while still returning `Ok`. -/
theorem C2_slot_reuse_failing_eval :
    (Page.insert_record layout32 pageDel3 [9, 9]).1 = .ok ()
    ∧ ((Page.insert_record layout32 pageDel3 [9, 9]).2.slots.getD 0 ⟨0, 0, false⟩).deleted = true
    ∧ ((Page.insert_record layout32 pageDel3 [9, 9]).2.slots.getD 0 ⟨0, 0, false⟩).record_length = 2
    ∧ (Page.insert_record layout32 pageDel3 [9, 9]).2.slots.length = 2 := by
  decide

/-- C3, failing evaluation: inserting a 12-byte record into a fresh 32-byte
page (18 data bytes) succeeds, yet leaves the single slot at
`page_offset = 6 < 7 = len(slots) × 7` and `data_offset = 6 < 7` — the
slots region overlaps the record region, violating the claimed invariant
(`can_insert` reserves no room for the new 7-byte slot entry). -/
theorem C3_overlap_failing_eval :
    (Page.insert_record layout32 (Page.new layout32) (List.replicate 12 1)).1 = .ok ()
    ∧ (Page.insert_record layout32 (Page.new layout32) (List.replicate 12 1)).2.slots.length = 1
    ∧ ((Page.insert_record layout32 (Page.new layout32)
        (List.replicate 12 1)).2.slots.getD 0 ⟨0, 0, false⟩).page_offset = 6
    ∧ (Page.insert_record layout32 (Page.new layout32) (List.replicate 12 1)).2.data_offset = 6
    ∧ ¬ ((Page.insert_record layout32 (Page.new layout32)
        (List.replicate 12 1)).2.slots.length * 7
          ≤ ((Page.insert_record layout32 (Page.new layout32)
            (List.replicate 12 1)).2.slots.getD 0 ⟨0, 0, false⟩).page_offset) := by
  decide

/-- C5, failing evaluation: `pageDel15` has its only slot marked deleted, so
per the claim byte `14 + 0 × 7` of the serialized page should be 1; the
serializer writes the constant 0 there, and consequently the deserialized
page reports the slot as alive. -/
theorem C5_deleted_flag_failing_eval :
    (pageDel15.slots.getD 0 ⟨0, 0, false⟩).deleted = true
    ∧ (Page.serialize layout32 pageDel15).getD 14 99 = 0
    ∧ ((Page.deserialize (Page.serialize layout32 pageDel15) layout32).slots.getD 0
        ⟨0, 0, false⟩).deleted = false := by
  decide

/-- C8: a row that fails validation makes `TableAccess::insert` return the
validation error (wrapped as `InsertRowError("Row validation error: …")`)
with the page file untouched — the store state is returned unchanged, before
any store operation. -/
theorem C8_validation_fails_fast (schema : TableSchema) (layout : PageDataLayout)
    (row : Row) (s : StoreState) (e : RowValidationError)
    (h : Row.validate row schema = .error e) :
    TableAccess.insert schema layout row s
      = (.error (.insertRowError ("Row validation error: " ++ e.message)), s) := by
  unfold TableAccess.insert
  rw [h]

/-- Witness for C8 at a concrete input: a cell-less row against a one-column
schema is a `LengthMismatch`, and `insert` leaves the fresh store unchanged. -/
theorem C8_validation_fails_fast_witness :
    Row.validate ⟨false, 0, []⟩ ⟨[⟨1, "id", .int⟩]⟩ = .error .lengthMismatch
    ∧ TableAccess.insert ⟨[⟨1, "id", .int⟩]⟩ layout32 ⟨false, 0, []⟩ freshStore
      = (.error (.insertRowError
          ("Row validation error: " ++ RowValidationError.lengthMismatch.message)), freshStore) :=
  ⟨by decide, C8_validation_fails_fast _ layout32 _ freshStore _ (by decide)⟩

/-- C9: when `can_insert` is false, `insert_record` returns `InsertRowError`
and the page — every observable field — is exactly as before the call (the
source checks `can_insert` before any mutation). -/
theorem C9_insert_atomic_on_failure (layout : PageDataLayout) (p : Page)
    (row_bytes : List Nat) (h : p.can_insert layout row_bytes = false) :
    Page.insert_record layout p row_bytes = (.error .insertRowError, p) := by
  unfold Page.insert_record
  simp [h]

/-- Witness for C9 at a concrete input: 19 bytes do not fit an 18-byte data
region, and the fresh page is returned unchanged. -/
theorem C9_insert_atomic_on_failure_witness :
    (Page.new layout32).can_insert layout32 (List.replicate 19 1) = false
    ∧ Page.insert_record layout32 (Page.new layout32) (List.replicate 19 1)
      = (.error .insertRowError, Page.new layout32) :=
  ⟨by decide, C9_insert_atomic_on_failure layout32 (Page.new layout32) _ (by decide)⟩

/-- C7: starting from a freshly initialized page file
(`next_id = 1, number_of_pages = 0`), the `k`-th `allocate_page` call
returns a page with `page_id = k`, and after it both metadata fields have
been incremented `k` times (`next_id = k + 1`, `number_of_pages = k`), so
allocated ids are strictly increasing starting at 1.  The bound keeps
`next_id` inside the `i32` range. -/
theorem C7_allocate_page_ids (layout : PageDataLayout) (k : Nat)
    (h1 : 1 ≤ k) (h2 : k ≤ 2147483646) :
    (FileStore.allocate_page layout (allocState layout (k - 1))).1.page_id = (k : Int)
    ∧ (allocState layout k).metadata.next_id = (k : Int) + 1
    ∧ (allocState layout k).metadata.number_of_pages = (k : Int) := by
  have h3 : k - 1 ≤ 2147483646 := by omega
  have m1 := allocState_metadata layout (k - 1) h3
  have m2 := allocState_metadata layout k h2
  refine ⟨?_, by rw [m2], by rw [m2]⟩
  simp only [FileStore.allocate_page, PageFileMetadata.allocate_next_page_id, m1]
  omega

/-- Witness for C7 at the concrete input `k = 3`. -/
theorem C7_allocate_page_ids_witness :
    1 ≤ 3
    ∧ (FileStore.allocate_page layout32 (allocState layout32 (3 - 1))).1.page_id
        = ((3 : Nat) : Int)
    ∧ (allocState layout32 3).metadata.next_id = ((3 : Nat) : Int) + 1
    ∧ (allocState layout32 3).metadata.number_of_pages = ((3 : Nat) : Int) := by
  have h := C7_allocate_page_ids layout32 3 (by decide) (by decide)
  exact ⟨by decide, h.1, h.2.1, h.2.2⟩

/-- C10, counterexample: `find` with the untrimmed name `" zz "` and with the
trimmed name `"zz"` do not behave identically — both fail the column lookup,
but the `LoadRowsError` message quotes the original input, so the two error
values differ. -/
theorem C10_counterexample :
    TableAccess.find schemaByte layout64 freshStore " zz " (Cell.int 0)
      ≠ TableAccess.find schemaByte layout64 freshStore "zz" (Cell.int 0) := by
  decide

/-- C10, amended: column lookup does compare every schema column name
against the trimmed input, so whenever some column matches `trim(n)`,
`find(n, c)` behaves identically to `find(trim(n), c)`; only in the
missing-column case do the results differ, and then only in the error
message, which embeds the untrimmed name. -/
theorem C10_find_trim_amended (schema : TableSchema) (layout : PageDataLayout)
    (s : StoreState) (n : String) (c : Cell)
    (h : ∃ col ∈ schema.columns, col.name = rustTrim n) :
    TableAccess.find schema layout s n c
      = TableAccess.find schema layout s (rustTrim n) c := by
  unfold TableAccess.find
  rw [rustTrim_idem n]
  cases hf : findColumnLoop schema.columns (rustTrim n) 0 with
  | some i => rfl
  | none =>
    obtain ⟨col, hmem, hname⟩ := h
    exact absurd hname (findColumnLoop_none schema.columns (rustTrim n) 0 hf col hmem)

/-- Witness for C10 at a concrete input: column `"v"` matches `trim(" v ")`,
and the two calls agree. -/
theorem C10_find_trim_amended_witness :
    (∃ col ∈ schemaByte.columns, col.name = rustTrim " v ")
    ∧ TableAccess.find schemaByte layout64 storeTwoRecs " v " (Cell.byte 5)
      = TableAccess.find schemaByte layout64 storeTwoRecs (rustTrim " v ") (Cell.byte 5) :=
  ⟨⟨⟨1, "v", .byte⟩, by decide, by decide⟩,
    C10_find_trim_amended schemaByte layout64 storeTwoRecs " v " (Cell.byte 5)
      ⟨⟨1, "v", .byte⟩, by decide, by decide⟩⟩

/-- C4, counterexample: in `storeTwoRecs` the record with row index 1 sits
under a slot marked deleted, and the record with row index 2 was inserted
after it (slot index 1).  The claim predicts `find` returns only the live
record, `[2]`, in ascending slot order; the code parses the record heap
sequentially from `data_offset`, ignoring slot metadata, and returns
`[2, 1]` — the deleted record is included, and records come newest-first. -/
theorem C4_counterexample :
    ((TableAccess.find schemaByte layout64 storeTwoRecs "v" (Cell.byte 5)).toOption.getD []).map
        Row.index = [2, 1]
    ∧ ([2, 1] : List Int) ≠ [2]
    ∧ ([2, 1] : List Int) ≠ [1, 2] := by
  decide

/-- C4, amended: `find(n, c)` fails with `LoadRowsError` exactly when no
schema column name equals `trim(n)`; otherwise it returns, over the pages in
page-id ascending order, every row parsed sequentially out of each page's
record heap starting at `data_offset` (so most recently inserted first,
descending slot index, slot deleted-flags never consulted) whose cell at the
matched column index structurally equals the target. -/
theorem C4_find_amended (schema : TableSchema) (layout : PageDataLayout) (s : StoreState)
    (n : String) (c : Cell) :
    TableAccess.find schema layout s n c =
      if ∀ col ∈ schema.columns, ¬ col.name = rustTrim n then
        .error (.loadRowsError ("Column \x27" ++ n ++ "\x27 not found!"))
      else
        .ok ((((pageIterator layout s).map (fun p => pageRows layout schema p)).flatten).filter
          (fun r => cellBEq (r.cells.getD
            (schema.columns.findIdx (fun col => col.name == rustTrim n)) (Cell.int 0)) c)) := by
  unfold TableAccess.find
  by_cases h : ∀ col ∈ schema.columns, ¬ col.name = rustTrim n
  · rw [if_pos h, findColumnLoop_eq_none schema.columns (rustTrim n) 0 h]
  · rw [if_neg h]
    have hex : ∃ col ∈ schema.columns, col.name = rustTrim n := by
      push_neg at h
      exact h
    rw [findColumnLoop_some schema.columns (rustTrim n) 0 hex]
    simp [findScanPages_eq_filter]

/-- C6: for every page — any mix of live and deleted slots, any data
contents — serializing, deserializing and serializing again is bit-exact:
`deserialize(serialize(P)).serialize() = serialize(P)`.  The hypotheses are
the in-range conditions under which the source's `serialize` does not panic
(`data` exactly fills the data region, the slot entries fit in it) and its
fields carry `u16` / `u32` / `i32` values. -/
theorem C6_serialize_roundtrip (layout : PageDataLayout) (p : Page)
    (h1 : p.data.length = pageDataSize layout)
    (h2 : p.slots.length * 7 ≤ pageDataSize layout)
    (h3 : p.number_of_records < 65536)
    (h4 : p.data_offset < 2147483648)
    (h5 : -2147483648 ≤ p.page_id) (h6 : p.page_id < 2147483648)
    (h7 : pageDataSize layout < 2147483648) :
    (Page.deserialize (p.serialize layout) layout).serialize layout
      = p.serialize layout :=
  serialize_roundtrip layout p h1 h2 h3 h4 h5 h6 h7

/-- Witness for C6 at a concrete input: a 32-byte page mixing one deleted
and one live slot round-trips bit-exactly. -/
theorem C6_serialize_roundtrip_witness :
    pageMix.data.length = pageDataSize layout32
    ∧ pageMix.slots.length * 7 ≤ pageDataSize layout32
    ∧ pageMix.number_of_records < 65536
    ∧ pageMix.data_offset < 2147483648
    ∧ -2147483648 ≤ pageMix.page_id
    ∧ pageMix.page_id < 2147483648
    ∧ pageDataSize layout32 < 2147483648
    ∧ (Page.deserialize (pageMix.serialize layout32) layout32).serialize layout32
        = pageMix.serialize layout32 :=
  ⟨by decide, by decide, by decide, by decide, by decide, by decide, by decide,
    C6_serialize_roundtrip layout32 pageMix (by decide) (by decide) (by decide) (by decide)
      (by decide) (by decide) (by decide)⟩
